import Mathlib

set_option maxHeartbeats 1000000

/-!
Shallow embedding of aap_eda.services.project.imports
(ProjectImportService and its helpers) and proofs about it.

External collaborators are modelled as explicit inputs:
the git client (clone / rev_parse / archive results), the YAML parser
(its verdict per candidate file is part of the filesystem model), the
source-expansion function expand_ruleset_sources (a parameter), and the
Django ORM (an explicit record of tables with id counters; the
transaction.atomic decorator becomes a wrapper that restores the initial
state on error).
-/

namespace EdaImports

/-- Parsed YAML values, as produced by yaml.safe_load.  Mapping keys are
arbitrary YAML values, as in Python dicts. -/
inductive Yaml where
  | null
  | bool (b : Bool)
  | str (s : String)
  | int (n : Int)
  | list (xs : List Yaml)
  | map (kvs : List (Yaml × Yaml))

mutual

/-- Structural equality of YAML values (Python == on parsed documents). -/
def yamlBeq : Yaml → Yaml → Bool
  | .null, .null => true
  | .bool a, .bool b => a == b
  | .str a, .str b => decide (a = b)
  | .int a, .int b => decide (a = b)
  | .list a, .list b => yamlListBeq a b
  | .map a, .map b => yamlPairsBeq a b
  | _, _ => false

/-- Elementwise yamlBeq on sequences. -/
def yamlListBeq : List Yaml → List Yaml → Bool
  | [], [] => true
  | a :: as, b :: bs => yamlBeq a b && yamlListBeq as bs
  | _, _ => false

/-- Pairwise yamlBeq on mapping entries. -/
def yamlPairsBeq : List (Yaml × Yaml) → List (Yaml × Yaml) → Bool
  | [], [] => true
  | (k1, v1) :: as, (k2, v2) :: bs => yamlBeq k1 k2 && (yamlBeq v1 v2 && yamlPairsBeq as bs)
  | _, _ => false

end

/-- Python exceptions that the import code can raise while subscripting,
iterating or membership-testing parsed YAML values. -/
inductive PyError where
  | typeError (msg : String)
  | keyError (key : Yaml)
  | indexError (msg : String)
  | other (msg : String)

/-- Whether the character list n occurs at the head of h. -/
def listLead : List Char → List Char → Bool
  | [], _ => true
  | _ :: _, [] => false
  | a :: as, b :: bs => a == b && listLead as bs

/-- Whether the character list n occurs contiguously anywhere in h. -/
def listSub (n h : List Char) : Bool :=
  match h with
  | [] => n.isEmpty
  | _ :: t => listLead n h || listSub n t

/-- Python substring test: needle in hay for strings. -/
def strIn (needle hay : String) : Bool := listSub needle.data hay.data

/-- First value stored under a key equal (yamlBeq) to key; Python dicts
have unique keys, so first-match lookup models both d[k] and d.get(k). -/
def lookupYaml (kvs : List (Yaml × Yaml)) (key : Yaml) : Option Yaml :=
  match kvs with
  | [] => none
  | (k, v) :: rest => if yamlBeq k key then some v else lookupYaml rest key

/-- Python membership test: key in container. -/
def pyIn (key container : Yaml) : Except PyError Bool :=
  match container with
  | .map kvs => .ok (kvs.any fun kv => yamlBeq kv.1 key)
  | .list xs => .ok (xs.any fun x => yamlBeq x key)
  | .str s =>
      match key with
      | .str ks => .ok (strIn ks s)
      | _ => .error (.typeError "in <string> requires string as left operand")
  | _ => .error (.typeError "argument is not iterable")

/-- Python subscription: container[key]. -/
def pyGetItem (container key : Yaml) : Except PyError Yaml :=
  match container with
  | .map kvs =>
      match lookupYaml kvs key with
      | some v => .ok v
      | none => .error (.keyError key)
  | .list xs =>
      match key with
      | .int n =>
          let i : Int := if n < 0 then n + xs.length else n
          if i < 0 then .error (.indexError "list index out of range")
          else
            match xs.get? i.toNat with
            | some v => .ok v
            | none => .error (.indexError "list index out of range")
      | _ => .error (.typeError "list indices must be integers or slices")
  | .str s =>
      match key with
      | .int n =>
          let cs := s.data
          let i : Int := if n < 0 then n + cs.length else n
          if i < 0 then .error (.indexError "string index out of range")
          else
            match cs.get? i.toNat with
            | some c => .ok (.str (String.mk [c]))
            | none => .error (.indexError "string index out of range")
      | _ => .error (.typeError "string indices must be integers")
  | _ => .error (.typeError "object is not subscriptable")

/-- Python truthiness of a parsed YAML value. -/
def pyTruthy : Yaml → Bool
  | .null => false
  | .bool b => b
  | .str s => !s.isEmpty
  | .int n => decide (n ≠ 0)
  | .list xs => !xs.isEmpty
  | .map kvs => !kvs.isEmpty

/-- Python iteration over a parsed YAML value: lists yield elements,
strings yield one-character strings, dicts yield their keys. -/
def pyIter : Yaml → Except PyError (List Yaml)
  | .list xs => .ok xs
  | .str s => .ok (s.data.map fun c => .str (String.mk [c]))
  | .map kvs => .ok (kvs.map Prod.fst)
  | _ => .error (.typeError "object is not iterable")

/-- The generator expression all("rules" in entry for entry in data):
short-circuiting conjunction that propagates the first exception a
membership test raises. -/
def allHaveRules : List Yaml → Except PyError Bool
  | [] => .ok true
  | e :: rest =>
      match pyIn (.str "rules") e with
      | .error err => .error err
      | .ok false => .ok false
      | .ok true => allHaveRules rest

/-- ProjectImportService._is_rulebook_file. -/
def is_rulebook_file (data : Yaml) : Except PyError Bool :=
  match data with
  | .list xs => allHaveRules xs
  | _ => .ok false

/-- The extension component of os.path.splitext applied to a bare
filename: the suffix starting at the last dot, unless every character
before that dot is itself a dot (then there is no extension). -/
def splitextExt (p : String) : String :=
  let cs := p.data
  match cs.reverse.findIdx? (fun c => c == '.') with
  | none => ""
  | some i =>
      let dotIndex := cs.length - 1 - i
      if (cs.take dotIndex).all (fun c => c == '.') then ""
      else String.mk (cs.drop dotIndex)

/-- YAML_EXTENSIONS. -/
def YAML_EXTENSIONS : List String := [".yml", ".yaml"]

/-- dataclass RulebookInfo. -/
structure RulebookInfo where
  relpath : String
  raw_content : String
  content : Yaml

/-- Outcome of opening, reading and yaml.safe_load-ing one candidate
file.  The YAML parser and the filesystem are external, so their verdict
on each file is part of the model of the cloned tree: ok carries the
parsed document, yamlError models yaml.YAMLError from safe_load, and
otherError models any other exception raised while reading or parsing. -/
inductive ParseResult where
  | ok (v : Yaml)
  | yamlError (msg : String)
  | otherError (msg : String)

/-- One file under the rulebooks directory in os.walk order: its base
name, the joined path used in log messages, the path relative to the
repository root, its raw text, and the read-and-parse outcome. -/
structure FsFile where
  filename : String
  path : String
  relpath : String
  raw_content : String
  parse : ParseResult

/-- The cloned working tree as the scanner sees it: whether the
top-level rulebooks directory exists, and the candidate files below it. -/
structure Repo where
  has_rulebooks_dir : Bool
  files : List FsFile

/-- Severity of a diagnostic emitted while scanning. -/
inductive LogLevel where
  | debug
  | warning
  | error

/-- One diagnostic record: severity and the file path it mentions. -/
structure LogEvent where
  level : LogLevel
  path : String

/-- ProjectImportService._try_load_rulebook: read and parse one
candidate.  Returns the diagnostics it logs itself together with either
the RulebookInfo, none (the file is not a rulebook), or the exception
that escaped it (unexpected read/parse faults, and any exception raised
by the _is_rulebook_file membership tests, are not caught here). -/
def try_load_rulebook (f : FsFile) : List LogEvent × Except PyError (Option RulebookInfo) :=
  match f.parse with
  | .otherError m => ([], .error (.other m))
  | .yamlError _ => ([⟨.warning, f.path⟩], .ok none)
  | .ok content =>
      match is_rulebook_file content with
      | .error e => ([], .error e)
      | .ok false => ([], .ok none)
      | .ok true => ([], .ok (some ⟨f.relpath, f.raw_content, content⟩))

/-- The per-file loop of ProjectImportService._find_rulebooks: files
whose extension is not in YAML_EXTENSIONS are passed over silently; an
exception escaping _try_load_rulebook is logged at error level and the
file skipped; a none result is logged at debug level and the file
skipped; otherwise the record is yielded.  Returns the yielded records
in walk order together with every diagnostic logged. -/
def scanFiles : List FsFile → List RulebookInfo × List LogEvent
  | [] => ([], [])
  | f :: rest =>
      let acc := scanFiles rest
      if YAML_EXTENSIONS.contains (splitextExt f.filename) then
        match try_load_rulebook f with
        | (lgs, .error _) => (acc.1, lgs ++ ⟨.error, f.path⟩ :: acc.2)
        | (lgs, .ok none) => (acc.1, lgs ++ ⟨.debug, f.path⟩ :: acc.2)
        | (lgs, .ok (some i)) => (i :: acc.1, lgs ++ acc.2)
      else acc

/-- ProjectImportService._find_rulebooks: raises ProjectImportError when
the rulebooks directory is missing, otherwise scans every file under it. -/
def find_rulebooks (repo : Repo) : Except String (List RulebookInfo × List LogEvent) :=
  if repo.has_rulebooks_dir then .ok (scanFiles repo.files)
  else .error "The \x27rulebooks\x27 directory doesn\x27t exist within the project root."

/-- models.Project row. -/
structure ProjectRow where
  id : Nat
  url : String
  git_hash : String
  name : String
  description : String
  archive_file : Option String

/-- models.Rulebook row. -/
structure RulebookRowDB where
  id : Nat
  project_id : Nat
  name : String

/-- models.Ruleset row. -/
structure RulesetRowDB where
  id : Nat
  rulebook_id : Nat
  name : Yaml
  sources : Option Yaml

/-- models.Rule row. -/
structure RuleRowDB where
  id : Nat
  ruleset_id : Nat
  name : Yaml
  action : Yaml

/-- The relational store: one autoincrement counter and one table per
model touched by the import. -/
structure DB where
  next_project_id : Nat
  next_rulebook_id : Nat
  next_ruleset_id : Nat
  next_rule_id : Nat
  projects : List ProjectRow
  rulebooks : List RulebookRowDB
  rulesets : List RulesetRowDB
  rules : List RuleRowDB

/-- models.Project.objects.create: appends a fresh row (archive not yet
attached) and returns its id. -/
def createProject (db : DB) (url git_hash name description : String) : DB × Nat :=
  ({ db with
      next_project_id := db.next_project_id + 1,
      projects := db.projects ++
        [⟨db.next_project_id, url, git_hash, name, description, none⟩] },
   db.next_project_id)

/-- The result of expand_ruleset_sources: a dict keyed by ruleset name. -/
abbrev ExpandMap := List (Yaml × Yaml)

/-- The rule_sets list comprehension of _import_rulebook: for each entry
of (content or []), take entry["name"] and look the same name up in the
expansion result with dict.get (absent names give no sources). -/
def buildRulesets (expanded : ExpandMap) : List Yaml → Except PyError (List (Yaml × Option Yaml))
  | [] => .ok []
  | data :: rest =>
      match pyGetItem data (.str "name") with
      | .error e => .error e
      | .ok nm =>
          match buildRulesets expanded rest with
          | .error e => .error e
          | .ok tail => .ok ((nm, lookupYaml expanded nm) :: tail)

/-- Ruleset.objects.bulk_create: rows persist in list order and receive
consecutive ids starting at base. -/
def assignRulesetIds (base rulebook_id : Nat) : List (Yaml × Option Yaml) → List RulesetRowDB
  | [] => []
  | (n, s) :: rest => ⟨base, rulebook_id, n, s⟩ :: assignRulesetIds (base + 1) rulebook_id rest

/-- The inner comprehension over one zipped (rule_set, rule_set_data)
pair: each element of rule_set_data["rules"] yields a rule whose name
and action are taken by subscription and whose owner is rule_set. -/
def buildRulesList (ruleset_id : Nat) : List Yaml → Except PyError (List (Nat × Yaml × Yaml))
  | [] => .ok []
  | r :: rest =>
      match pyGetItem r (.str "name") with
      | .error e => .error e
      | .ok nm =>
          match pyGetItem r (.str "action") with
          | .error e => .error e
          | .ok act =>
              match buildRulesList ruleset_id rest with
              | .error e => .error e
              | .ok tail => .ok ((ruleset_id, nm, act) :: tail)

/-- The rules list comprehension of _import_rulebook, iterating
zip(rule_sets, rulebook_info.content). -/
def buildRules : List (RulesetRowDB × Yaml) → Except PyError (List (Nat × Yaml × Yaml))
  | [] => .ok []
  | (rs, data) :: rest =>
      match pyGetItem data (.str "rules") with
      | .error e => .error e
      | .ok rulesVal =>
          match pyIter rulesVal with
          | .error e => .error e
          | .ok items =>
              match buildRulesList rs.id items with
              | .error e => .error e
              | .ok here =>
                  match buildRules rest with
                  | .error e => .error e
                  | .ok there => .ok (here ++ there)

/-- Rule.objects.bulk_create: rows persist in list order with
consecutive ids starting at base. -/
def assignRuleIds (base : Nat) : List (Nat × Yaml × Yaml) → List RuleRowDB
  | [] => []
  | (rsId, n, a) :: rest => ⟨base, rsId, n, a⟩ :: assignRuleIds (base + 1) rest

/-- ProjectImportService._import_rulebook: create the Rulebook row, run
the expansion, bulk-create the Ruleset rows from (content or []), then
bulk-create the Rule rows from zip(rule_sets, content).  The expansion
function is the external expand_ruleset_sources, passed in as a
parameter; any exception it or a subscription raises propagates. -/
def importRulebookDB (expand : Yaml → Except PyError ExpandMap) (project_id : Nat)
    (info : RulebookInfo) (db : DB) : Except PyError DB :=
  let rbId := db.next_rulebook_id
  let db1 : DB := { db with
      next_rulebook_id := rbId + 1,
      rulebooks := db.rulebooks ++ [⟨rbId, project_id, info.relpath⟩] }
  match expand info.content with
  | .error e => .error e
  | .ok expanded =>
      match pyIter (if pyTruthy info.content then info.content else .list []) with
      | .error e => .error e
      | .ok entries =>
          match buildRulesets expanded entries with
          | .error e => .error e
          | .ok rsPure =>
              let rsRows := assignRulesetIds db1.next_ruleset_id rbId rsPure
              let db2 : DB := { db1 with
                  next_ruleset_id := db1.next_ruleset_id + rsPure.length,
                  rulesets := db1.rulesets ++ rsRows }
              match pyIter info.content with
              | .error e => .error e
              | .ok contentList =>
                  match buildRules (rsRows.zip contentList) with
                  | .error e => .error e
                  | .ok ruPure =>
                      .ok { db2 with
                          next_rule_id := db2.next_rule_id + ruPure.length,
                          rules := db2.rules ++ assignRuleIds db2.next_rule_id ruPure }

/-- ProjectImportService._import_rulebooks: fold the per-rulebook import
over the scanned records in order. -/
def import_rulebooks (expand : Yaml → Except PyError ExpandMap) (project_id : Nat) :
    List RulebookInfo → DB → Except PyError DB
  | [], db => .ok db
  | i :: rest, db =>
      match importRulebookDB expand project_id i db with
      | .error e => .error e
      | .ok db' => import_rulebooks expand project_id rest db'

/-- zero-padded archive blob filename from _save_project_archive. -/
def archiveFilename (id : Nat) : String :=
  let s := Nat.repr id
  String.mk (List.replicate (10 - s.length) '0') ++ s ++ ".archive.tar.gz"

/-- The exceptions that can abort ProjectImportService.run: the missing
rulebooks directory (ProjectImportError), git clone and git archive
failures, and Python exceptions from the per-rulebook import. -/
inductive RunError where
  | projectImportError (msg : String)
  | transferError (msg : String)
  | archiveError (msg : String)
  | pyError (e : PyError)

/-- Observable behaviour of the injected git client over one run: the
clone result (the scanned working tree on success), the commit id that
rev_parse HEAD returns, and the outcome of the archive command. -/
structure GitEnv where
  clone : Except String Repo
  head_commit : String
  archive_result : Except String Unit

/-- ProjectImportService._save_project_archive: run git archive, then
attach the blob to the project row under the zero-padded filename. -/
def save_project_archive (git : GitEnv) (project_id : Nat) (db : DB) : Except RunError DB :=
  match git.archive_result with
  | .error m => .error (.archiveError m)
  | .ok _ => .ok { db with
      projects := db.projects.map fun p =>
        if p.id = project_id then { p with archive_file := some (archiveFilename project_id) }
        else p }

/-- The body of ProjectImportService.run without the transaction
decorator: clone, rev-parse, create the Project row, import every
scanned rulebook, archive.  Errors propagate with the state in which
they occurred discarded by the caller. -/
def runInner (git : GitEnv) (expand : Yaml → Except PyError ExpandMap)
    (name url description : String) (db : DB) : Except RunError (DB × Nat) :=
  match git.clone with
  | .error m => .error (.transferError m)
  | .ok repo =>
      let commit_id := git.head_commit
      let created := createProject db url commit_id name description
      match find_rulebooks repo with
      | .error m => .error (.projectImportError m)
      | .ok scanned =>
          match import_rulebooks expand created.2 scanned.1 created.1 with
          | .error e => .error (.pyError e)
          | .ok db2 =>
              match save_project_archive git created.2 db2 with
              | .error e => .error e
              | .ok db3 => .ok (db3, created.2)

/-- ProjectImportService.run: the body under @transaction.atomic — on
success the new state is committed and the created project id returned,
on any error every write of this run is rolled back, restoring the
initial state. -/
def run (git : GitEnv) (expand : Yaml → Except PyError ExpandMap)
    (name url description : String) (db : DB) : DB × Except RunError Nat :=
  match runInner git expand name url description db with
  | .ok r => (r.1, .ok r.2)
  | .error e => (db, .error e)

/-! Canonical encodings of the documented rulebook schema (section 6 of
the design: a top-level sequence whose elements carry a name and a rules
list of name/action pairs), used to quantify over well-formed documents. -/

/-- One rule of the document schema: a mapping with a name and an action. -/
structure RuleSpec where
  rname : Yaml
  raction : Yaml

/-- One ruleset entry of the document schema: a mapping with a name and
a list of rules. -/
structure RulesetSpec where
  rsname : Yaml
  rsrules : List RuleSpec

/-- Encode one rule as its YAML mapping. -/
def encodeRule (r : RuleSpec) : Yaml :=
  .map [(.str "name", r.rname), (.str "action", r.raction)]

/-- Encode one ruleset entry as its YAML mapping. -/
def encodeRuleset (rs : RulesetSpec) : Yaml :=
  .map [(.str "name", rs.rsname), (.str "rules", .list (rs.rsrules.map encodeRule))]

/-- Encode a whole rulebook document as its top-level YAML sequence. -/
def encodeRulebook (l : List RulesetSpec) : Yaml := .list (l.map encodeRuleset)

/-- The (ruleset id, rule name, rule action) triples that importing an
encoded document must produce when its first entry owns ruleset id base:
entry i contributes one triple per rule, all owned by ruleset base + i. -/
def encRuleTriples (base : Nat) : List RulesetSpec → List (Nat × Yaml × Yaml)
  | [] => []
  | rs :: rest =>
      rs.rsrules.map (fun r => (base, r.rname, r.raction)) ++ encRuleTriples (base + 1) rest

/-! Concrete fixtures used by the witness theorems. -/

/-- An empty store. -/
def emptyDB : DB := ⟨0, 0, 0, 0, [], [], [], []⟩

/-- An expansion function returning an empty mapping for every document. -/
def noExpand : Yaml → Except PyError ExpandMap := fun _ => .ok []

/-- A repository with a rulebooks directory and no files. -/
def emptyRepo : Repo := ⟨true, []⟩

/-- A git client whose every operation succeeds on an empty repository. -/
def okGit : GitEnv := ⟨.ok emptyRepo, "c0ffee", .ok ()⟩

/-- A git client that clones a repository with no rulebooks directory. -/
def noDirGit : GitEnv := ⟨.ok ⟨false, []⟩, "c0ffee", .ok ()⟩

/-- A git client whose archive command fails after a successful clone. -/
def archiveFailGit : GitEnv := ⟨.ok emptyRepo, "c0ffee", .error "disk full"⟩

/-- A candidate file whose document is one ruleset entry that lacks the
"rules" key (the example of the spec in section 7). -/
def entryNoRulesFile : FsFile :=
  { filename := "a.yml", path := "rulebooks/a.yml", relpath := "rulebooks/a.yml",
    raw_content := "- name: r1", parse := .ok (.list [.map [(.str "name", .str "r1")]]) }

/-- A git client cloning a repository holding only entryNoRulesFile. -/
def entryNoRulesGit : GitEnv := ⟨.ok ⟨true, [entryNoRulesFile]⟩, "c0ffee", .ok ()⟩

/-- A one-entry, one-rule document used by witnesses. -/
def oneRuleDoc : List RulesetSpec := [⟨.str "r1", [⟨.str "say hello", .str "debug"⟩]⟩]

/-- The store produced by importing oneRuleDoc into emptyDB for project
id 5. -/
def oneRuleDB : DB :=
  ⟨0, 1, 1, 1, [], [⟨0, 5, "a.yml"⟩],
   [⟨0, 0, .str "r1", none⟩], [⟨0, 0, .str "say hello", .str "debug"⟩]⟩

/-- A document with two ruleset entries sharing one name. -/
def dupDoc : List RulesetSpec := [⟨.str "r", []⟩, ⟨.str "r", []⟩]

/-- An expansion result carrying one entry for the duplicated name. -/
def dupEm : ExpandMap := [(.str "r", .list [.int 1])]

/-- An expansion function answering dupEm for every document. -/
def dupExpand : Yaml → Except PyError ExpandMap := fun _ => .ok dupEm

/-- A candidate file whose document is an empty top-level sequence. -/
def emptyListFile : FsFile :=
  { filename := "e.yml", path := "rulebooks/e.yml", relpath := "rulebooks/e.yml",
    raw_content := "[]", parse := .ok (.list []) }

/-- A candidate file whose text is not valid YAML. -/
def badYamlFile : FsFile :=
  { filename := "bad.yml", path := "rulebooks/bad.yml", relpath := "rulebooks/bad.yml",
    raw_content := ":", parse := .yamlError "mapping values are not allowed here" }

/-- A candidate file whose read raises an unexpected exception. -/
def unreadableFile : FsFile :=
  { filename := "u.yaml", path := "rulebooks/u.yaml", relpath := "rulebooks/u.yaml",
    raw_content := "", parse := .otherError "Permission denied" }

/-- A candidate file whose single entry has the "rules" key but no
"name" key. -/
def entryNoNameFile : FsFile :=
  { filename := "n.yml", path := "rulebooks/n.yml", relpath := "rulebooks/n.yml",
    raw_content := "- rules: []", parse := .ok (.list [.map [(.str "rules", .list [])]]) }

/-! Supporting lemmas. -/

/-- The per-rulebook import never touches the projects table or its id
counter. -/
theorem importRulebookDB_preserves (expand : Yaml → Except PyError ExpandMap)
    (project_id : Nat) (info : RulebookInfo) (db db' : DB)
    (h : importRulebookDB expand project_id info db = .ok db') :
    db'.projects = db.projects ∧ db'.next_project_id = db.next_project_id := by
  simp only [importRulebookDB] at h
  iterate 8 (all_goals try split at h)
  all_goals cases h
  all_goals exact ⟨rfl, rfl⟩

/-- Folding the per-rulebook import never touches the projects table or
its id counter. -/
theorem import_rulebooks_preserves (expand : Yaml → Except PyError ExpandMap)
    (project_id : Nat) (infos : List RulebookInfo) (db db' : DB)
    (h : import_rulebooks expand project_id infos db = .ok db') :
    db'.projects = db.projects ∧ db'.next_project_id = db.next_project_id := by
  induction infos generalizing db with
  | nil => cases h; exact ⟨rfl, rfl⟩
  | cons i rest ih =>
      unfold import_rulebooks at h
      cases hstep : importRulebookDB expand project_id i db with
      | error e => rw [hstep] at h; cases h
      | ok db1 =>
          rw [hstep] at h
          obtain ⟨h1, h2⟩ := ih db1 h
          obtain ⟨h3, h4⟩ := importRulebookDB_preserves expand project_id i db db1 hstep
          exact ⟨h1.trans h3, h2.trans h4⟩

/-- On success, archiving maps the project table, attaching the blob
filename to the matching row, and leaves the id counter alone. -/
theorem save_project_archive_ok (git : GitEnv) (project_id : Nat) (db db' : DB)
    (h : save_project_archive git project_id db = .ok db') :
    db'.projects = db.projects.map (fun p =>
      if p.id = project_id then { p with archive_file := some (archiveFilename project_id) }
      else p) ∧
    db'.next_project_id = db.next_project_id := by
  unfold save_project_archive at h
  cases ha : git.archive_result with
  | error m => rw [ha] at h; cases h
  | ok u => rw [ha] at h; cases h; exact ⟨rfl, rfl⟩

/-- What a successful run body guarantees: the returned id is the fresh
project id, the counter advanced once, the fully populated project row
(archive attached) is persisted, and every pre-existing row with another
id is still there. -/
theorem runInner_ok_spec (git : GitEnv) (expand : Yaml → Except PyError ExpandMap)
    (name url description : String) (db db' : DB) (pid : Nat)
    (h : runInner git expand name url description db = .ok (db', pid)) :
    pid = db.next_project_id ∧
    db'.next_project_id = db.next_project_id + 1 ∧
    (⟨pid, url, git.head_commit, name, description,
      some (archiveFilename pid)⟩ : ProjectRow) ∈ db'.projects ∧
    (∀ q ∈ db.projects, q.id ≠ pid → q ∈ db'.projects) := by
  unfold runInner at h
  cases hc : git.clone with
  | error m => rw [hc] at h; cases h
  | ok repo =>
    rw [hc] at h
    dsimp only at h
    cases hf : find_rulebooks repo with
    | error m => rw [hf] at h; cases h
    | ok scanned =>
      rw [hf] at h
      dsimp only at h
      simp only [createProject] at h
      cases hi : import_rulebooks expand db.next_project_id scanned.1
          { db with
            next_project_id := db.next_project_id + 1,
            projects := db.projects ++
              [⟨db.next_project_id, url, git.head_commit, name, description, none⟩] } with
      | error e => rw [hi] at h; cases h
      | ok dbI =>
        rw [hi] at h
        dsimp only at h
        cases ha : save_project_archive git db.next_project_id dbI with
        | error e => rw [ha] at h; cases h
        | ok dbA =>
          rw [ha] at h
          obtain ⟨hdb, hpid⟩ := by
            simpa only [Except.ok.injEq, Prod.mk.injEq] using h
          subst hdb
          subst hpid
          obtain ⟨hIp, hIn⟩ := import_rulebooks_preserves _ _ _ _ _ hi
          obtain ⟨hAp, hAn⟩ := save_project_archive_ok _ _ _ _ ha
          refine ⟨rfl, ?_, ?_, ?_⟩
          · rw [hAn, hIn]
          · rw [hAp, hIp]
            have hmem : (⟨db.next_project_id, url, git.head_commit, name, description,
                none⟩ : ProjectRow) ∈ db.projects ++
                [⟨db.next_project_id, url, git.head_commit, name, description, none⟩] :=
              List.mem_append_right _ (by simp)
            have h2 := List.mem_map_of_mem (fun p =>
              if p.id = db.next_project_id then
                { p with archive_file := some (archiveFilename db.next_project_id) }
              else p) hmem
            dsimp only at h2
            rw [if_pos rfl] at h2
            exact h2
          · intro q hq hqne
            rw [hAp, hIp]
            have hmem : q ∈ db.projects ++
                [⟨db.next_project_id, url, git.head_commit, name, description, none⟩] :=
              List.mem_append_left _ hq
            have h2 := List.mem_map_of_mem (fun p =>
              if p.id = db.next_project_id then
                { p with archive_file := some (archiveFilename db.next_project_id) }
              else p) hmem
            dsimp only at h2
            rw [if_neg hqne] at h2
            exact h2

/-- run answers ok exactly when the undecorated body does, with the
committed state. -/
theorem run_eq_ok (git : GitEnv) (expand : Yaml → Except PyError ExpandMap)
    (name url description : String) (db db' : DB) (pid : Nat) :
    run git expand name url description db = (db', .ok pid) ↔
    runInner git expand name url description db = .ok (db', pid) := by
  unfold run
  cases hr : runInner git expand name url description db with
  | error e => simp
  | ok r => simp [Prod.ext_iff, and_comm]

/-- run answers an error exactly when the undecorated body does, and
then hands back the initial state: the rollback. -/
theorem run_eq_error (git : GitEnv) (expand : Yaml → Except PyError ExpandMap)
    (name url description : String) (db db' : DB) (e : RunError) :
    run git expand name url description db = (db', .error e) ↔
    db' = db ∧ runInner git expand name url description db = .error e := by
  unfold run
  cases hr : runInner git expand name url description db with
  | error e' => simp [eq_comm, and_comm]
  | ok r => simp

/-- C1: every import invocation is atomic.  If any failure occurs after
the Project row is created and before the run completes (scanner fatal
error, expansion or extraction failure, archive failure), every
persisted write of that run is rolled back — the caller observes the
untouched initial store with its single error; on success the caller
observes a fully populated Project row, archive blob attached. -/
theorem claim_c1_run_atomic (git : GitEnv) (expand : Yaml → Except PyError ExpandMap)
    (name url description : String) (db db' : DB) :
    (∀ e : RunError, run git expand name url description db = (db', .error e) → db' = db) ∧
    (∀ pid : Nat, run git expand name url description db = (db', .ok pid) →
      (⟨pid, url, git.head_commit, name, description,
        some (archiveFilename pid)⟩ : ProjectRow) ∈ db'.projects) := by
  constructor
  · intro e h
    exact ((run_eq_error git expand name url description db db' e).mp h).1
  · intro pid h
    exact (runInner_ok_spec git expand name url description db db' pid
      ((run_eq_ok git expand name url description db db' pid).mp h)).2.2.1

/-- C1 witness: a concrete run whose archive step fails after the
Project row was created is rolled back to the empty store. -/
theorem claim_c1_witness :
    (run archiveFailGit noExpand "p" "u" "" emptyDB).1 = emptyDB :=
  (claim_c1_run_atomic archiveFailGit noExpand "p" "u" "" emptyDB emptyDB).1
    (.archiveError "disk full") rfl

/-- C3: when the cloned repository has no rulebooks directory, the run
fails with the ProjectImportError carrying the missing-directory message
and the store is left exactly as before: no Project row persists. -/
theorem claim_c3_missing_rulebooks_dir (git : GitEnv)
    (expand : Yaml → Except PyError ExpandMap) (name url description : String)
    (db : DB) (repo : Repo) (hclone : git.clone = .ok repo)
    (hdir : repo.has_rulebooks_dir = false) :
    run git expand name url description db =
      (db, .error (.projectImportError
        "The \x27rulebooks\x27 directory doesn\x27t exist within the project root.")) := by
  unfold run runInner
  rw [hclone]
  dsimp only
  unfold find_rulebooks
  rw [hdir]
  simp

/-- C3 witness: the missing-directory failure on a concrete repository. -/
theorem claim_c3_witness :
    run noDirGit noExpand "p" "u" "" emptyDB =
      (emptyDB, .error (.projectImportError
        "The \x27rulebooks\x27 directory doesn\x27t exist within the project root.")) :=
  claim_c3_missing_rulebooks_dir noDirGit noExpand "p" "u" "" emptyDB ⟨false, []⟩ rfl rfl

/-- C7: every successful import attaches the archive blob under the
project id zero-padded to width 10 followed by .archive.tar.gz, and in
particular project id 42 yields exactly 0000000042.archive.tar.gz. -/
theorem claim_c7_archive_filename (git : GitEnv) (expand : Yaml → Except PyError ExpandMap)
    (name url description : String) (db db' : DB) (pid : Nat)
    (h : run git expand name url description db = (db', .ok pid)) :
    (∃ p ∈ db'.projects, p.id = pid ∧ p.archive_file = some (archiveFilename pid)) ∧
    archiveFilename 42 = "0000000042.archive.tar.gz" := by
  refine ⟨?_, rfl⟩
  have hm := (runInner_ok_spec git expand name url description db db' pid
    ((run_eq_ok git expand name url description db db' pid).mp h)).2.2.1
  exact ⟨_, hm, rfl, rfl⟩

/-- C7 witness: a concrete successful run, its project id 0 padded. -/
theorem claim_c7_witness :
    (∃ p ∈ (run okGit noExpand "p" "u" "" emptyDB).1.projects,
      p.id = 0 ∧ p.archive_file = some (archiveFilename 0)) ∧
    archiveFilename 42 = "0000000042.archive.tar.gz" :=
  claim_c7_archive_filename okGit noExpand "p" "u" "" emptyDB
    (run okGit noExpand "p" "u" "" emptyDB).1 0 rfl

/-- C9: import is not idempotent.  Two successive runs over the same
url create two Project rows with distinct ids, both persisted, both
recording the same url and the same git hash: nothing deduplicates by
url or commit. -/
theorem claim_c9_not_idempotent (git : GitEnv) (expand : Yaml → Except PyError ExpandMap)
    (name url description : String) (db db1 db2 : DB) (pid1 pid2 : Nat)
    (h1 : run git expand name url description db = (db1, .ok pid1))
    (h2 : run git expand name url description db1 = (db2, .ok pid2)) :
    pid1 ≠ pid2 ∧
    (∃ p1 ∈ db2.projects, p1.id = pid1 ∧ p1.url = url ∧ p1.git_hash = git.head_commit) ∧
    (∃ p2 ∈ db2.projects, p2.id = pid2 ∧ p2.url = url ∧ p2.git_hash = git.head_commit) := by
  obtain ⟨e1, n1, m1, o1⟩ := runInner_ok_spec git expand name url description db db1 pid1
    ((run_eq_ok git expand name url description db db1 pid1).mp h1)
  obtain ⟨e2, n2, m2, o2⟩ := runInner_ok_spec git expand name url description db1 db2 pid2
    ((run_eq_ok git expand name url description db1 db2 pid2).mp h2)
  have hne : pid1 ≠ pid2 := by
    rw [e1, e2, n1]
    omega
  exact ⟨hne,
    ⟨⟨pid1, url, git.head_commit, name, description, some (archiveFilename pid1)⟩,
      o2 _ m1 hne, rfl, rfl, rfl⟩,
    ⟨⟨pid2, url, git.head_commit, name, description, some (archiveFilename pid2)⟩,
      m2, rfl, rfl, rfl⟩⟩

/-- C9 witness: two concrete successive runs yield project ids 0 and 1,
both persisted. -/
theorem claim_c9_witness :
    (0 : Nat) ≠ 1 ∧
    (∃ p1 ∈ (run okGit noExpand "p" "u" "" (run okGit noExpand "p" "u" "" emptyDB).1).1.projects,
      p1.id = 0 ∧ p1.url = "u" ∧ p1.git_hash = okGit.head_commit) ∧
    (∃ p2 ∈ (run okGit noExpand "p" "u" "" (run okGit noExpand "p" "u" "" emptyDB).1).1.projects,
      p2.id = 1 ∧ p2.url = "u" ∧ p2.git_hash = okGit.head_commit) :=
  claim_c9_not_idempotent okGit noExpand "p" "u" "" emptyDB
    (run okGit noExpand "p" "u" "" emptyDB).1
    (run okGit noExpand "p" "u" "" (run okGit noExpand "p" "u" "" emptyDB).1).1
    0 1 rfl rfl

/-! Computation lemmas over encoded documents. -/

/-- Subscripting an encoded ruleset entry with "name" yields its name. -/
theorem pyGetItem_enc_name (rs : RulesetSpec) :
    pyGetItem (encodeRuleset rs) (.str "name") = .ok rs.rsname := rfl

/-- Subscripting an encoded ruleset entry with "rules" yields its
encoded rules list. -/
theorem pyGetItem_enc_rules (rs : RulesetSpec) :
    pyGetItem (encodeRuleset rs) (.str "rules") = .ok (.list (rs.rsrules.map encodeRule)) := rfl

/-- Subscripting an encoded rule with "name" yields its name. -/
theorem pyGetItem_encRule_name (r : RuleSpec) :
    pyGetItem (encodeRule r) (.str "name") = .ok r.rname := rfl

/-- Subscripting an encoded rule with "action" yields its action. -/
theorem pyGetItem_encRule_action (r : RuleSpec) :
    pyGetItem (encodeRule r) (.str "action") = .ok r.raction := rfl

/-- Iterating a YAML sequence yields its elements. -/
theorem pyIter_list (xs : List Yaml) : pyIter (.list xs) = .ok xs := rfl

/-- The (content or []) guard is invisible over lists: an empty list is
replaced by the empty list, anything else kept, so iteration always
yields the elements. -/
theorem pyIter_orEmpty (xs : List Yaml) :
    pyIter (if pyTruthy (.list xs) then .list xs else .list []) = .ok xs := by
  cases xs <;> rfl

/-- The ruleset comprehension over an encoded document: one (name,
looked-up sources) pair per entry, in entry order. -/
theorem buildRulesets_encoded (em : ExpandMap) (l : List RulesetSpec) :
    buildRulesets em (l.map encodeRuleset) =
      .ok (l.map fun rs => (rs.rsname, lookupYaml em rs.rsname)) := by
  induction l with
  | nil => rfl
  | cons rs rest ih => simp only [List.map_cons, buildRulesets, pyGetItem_enc_name, ih]

/-- The inner rule comprehension over encoded rules: one triple per
rule, in order, all owned by the given ruleset id. -/
theorem buildRulesList_encoded (ruleset_id : Nat) (rl : List RuleSpec) :
    buildRulesList ruleset_id (rl.map encodeRule) =
      .ok (rl.map fun r => (ruleset_id, r.rname, r.raction)) := by
  induction rl with
  | nil => rfl
  | cons r rest ih =>
      simp only [List.map_cons, buildRulesList, pyGetItem_encRule_name,
        pyGetItem_encRule_action, ih]

/-- The rule comprehension over the zip of the created ruleset rows with
the encoded entries: entry i contributes its rules, owned by the row at
position i, whose id is base + i. -/
theorem buildRules_encoded (base rbId : Nat) (em : ExpandMap) (l : List RulesetSpec) :
    buildRules ((assignRulesetIds base rbId
        (l.map fun rs => (rs.rsname, lookupYaml em rs.rsname))).zip (l.map encodeRuleset)) =
      .ok (encRuleTriples base l) := by
  induction l generalizing base with
  | nil => rfl
  | cons rs rest ih =>
      have ih' := ih (base + 1)
      simp only [List.zip] at ih'
      simp only [List.map_cons, assignRulesetIds, List.zip, List.zipWith_cons_cons, buildRules,
        pyGetItem_enc_rules, pyIter, buildRulesList_encoded, ih', encRuleTriples]

/-- bulk_create over n pure rows yields n rows. -/
theorem assignRulesetIds_length (base rbId : Nat) (rows : List (Yaml × Option Yaml)) :
    (assignRulesetIds base rbId rows).length = rows.length := by
  induction rows generalizing base with
  | nil => rfl
  | cons r rest ih =>
      obtain ⟨n, s⟩ := r
      simp only [assignRulesetIds, List.length_cons, ih]

/-- The names of created ruleset rows are the names of the pure rows, in
order. -/
theorem assignRulesetIds_map_name (base rbId : Nat) (rows : List (Yaml × Option Yaml)) :
    (assignRulesetIds base rbId rows).map RulesetRowDB.name = rows.map Prod.fst := by
  induction rows generalizing base with
  | nil => rfl
  | cons r rest ih =>
      obtain ⟨n, s⟩ := r
      simp only [assignRulesetIds, List.map_cons, ih]

/-- The row at position i of a bulk-create carries id base + i and the
i-th pure row. -/
theorem assignRulesetIds_getElem? (base rbId : Nat) (rows : List (Yaml × Option Yaml))
    (i : Nat) :
    (assignRulesetIds base rbId rows)[i]? =
      rows[i]?.map fun p => ⟨base + i, rbId, p.1, p.2⟩ := by
  induction rows generalizing base i with
  | nil => simp [assignRulesetIds]
  | cons r rest ih =>
      obtain ⟨n, s⟩ := r
      cases i with
      | zero => simp [assignRulesetIds]
      | succ j =>
          have harith : base + (j + 1) = base + 1 + j := by omega
          simp only [assignRulesetIds, List.getElem?_cons_succ, ih (base + 1) j, harith]

/-- A rule of entry i appears among the expected triples with owner
base + i. -/
theorem encRuleTriples_mem (l : List RulesetSpec) (base i : Nat) (rs : RulesetSpec)
    (hi : l[i]? = some rs) (r : RuleSpec) (hr : r ∈ rs.rsrules) :
    (base + i, r.rname, r.raction) ∈ encRuleTriples base l := by
  induction l generalizing base i with
  | nil => simp at hi
  | cons a rest ih =>
      cases i with
      | zero =>
          simp only [List.getElem?_cons_zero, Option.some.injEq] at hi
          subst hi
          rw [Nat.add_zero]
          exact List.mem_append_left _ (List.mem_map_of_mem _ hr)
      | succ j =>
          simp only [List.getElem?_cons_succ] at hi
          have harith : base + (j + 1) = base + 1 + j := by omega
          rw [harith]
          exact List.mem_append_right _ (ih (base + 1) j hi)

/-- Every pure triple survives bulk_create: some created row carries its
owner, name and action. -/
theorem assignRuleIds_mem (t : Nat × Yaml × Yaml) (triples : List (Nat × Yaml × Yaml))
    (base : Nat) (ht : t ∈ triples) :
    ∃ row ∈ assignRuleIds base triples,
      row.ruleset_id = t.1 ∧ row.name = t.2.1 ∧ row.action = t.2.2 := by
  induction triples generalizing base with
  | nil => cases ht
  | cons a rest ih =>
      obtain ⟨rsId, n, act⟩ := a
      rcases List.mem_cons.mp ht with h | h
      · subst h
        exact ⟨⟨base, rsId, n, act⟩, List.mem_cons_self _ _, rfl, rfl, rfl⟩
      · obtain ⟨row, hrow, hfields⟩ := ih (base + 1) h
        exact ⟨row, List.mem_cons_of_mem _ hrow, hfields⟩

/-- Full characterisation of the per-rulebook import on an encoded
document when the expansion answers em: it succeeds and appends exactly
the Rulebook row, the per-entry Ruleset rows and the per-rule Rule rows. -/
theorem importRulebookDB_encoded (expand : Yaml → Except PyError ExpandMap) (em : ExpandMap)
    (project_id : Nat) (rp raw : String) (l : List RulesetSpec) (db : DB)
    (h : expand (encodeRulebook l) = .ok em) :
    importRulebookDB expand project_id ⟨rp, raw, encodeRulebook l⟩ db =
      .ok { db with
        next_rulebook_id := db.next_rulebook_id + 1,
        rulebooks := db.rulebooks ++ [⟨db.next_rulebook_id, project_id, rp⟩],
        next_ruleset_id := db.next_ruleset_id + l.length,
        rulesets := db.rulesets ++ assignRulesetIds db.next_ruleset_id db.next_rulebook_id
          (l.map fun rs => (rs.rsname, lookupYaml em rs.rsname)),
        next_rule_id := db.next_rule_id + (encRuleTriples db.next_ruleset_id l).length,
        rules := db.rules ++ assignRuleIds db.next_rule_id
          (encRuleTriples db.next_ruleset_id l) } := by
  simp only [encodeRulebook] at h
  simp only [importRulebookDB, encodeRulebook, h, pyIter_orEmpty, buildRulesets_encoded,
    pyIter_list, buildRules_encoded, List.length_map]

/-- Every row that bulk_create persisted comes from one of the pure
triples, carrying its owner, name and action. -/
theorem assignRuleIds_mem_rev (row : RuleRowDB) (triples : List (Nat × Yaml × Yaml))
    (base : Nat) (hrow : row ∈ assignRuleIds base triples) :
    ∃ t ∈ triples, row.ruleset_id = t.1 ∧ row.name = t.2.1 ∧ row.action = t.2.2 := by
  induction triples generalizing base with
  | nil => cases hrow
  | cons a rest ih =>
      obtain ⟨rsId, n, act⟩ := a
      rcases List.mem_cons.mp hrow with h | h
      · subst h
        exact ⟨(rsId, n, act), List.mem_cons_self _ _, rfl, rfl, rfl⟩
      · obtain ⟨t, ht, hf⟩ := ih (base + 1) h
        exact ⟨t, List.mem_cons_of_mem _ ht, hf⟩

/-- Every expected triple comes from some document entry: its owner is
base + the entry position and its name and action are those of one of
that entry's rules. -/
theorem encRuleTriples_mem_rev (l : List RulesetSpec) (base : Nat) (t : Nat × Yaml × Yaml)
    (ht : t ∈ encRuleTriples base l) :
    ∃ i rs r, l[i]? = some rs ∧ r ∈ rs.rsrules ∧ t = (base + i, r.rname, r.raction) := by
  induction l generalizing base with
  | nil => cases ht
  | cons a rest ih =>
      simp only [encRuleTriples] at ht
      rcases List.mem_append.mp ht with h | h
      · obtain ⟨r, hr, heq⟩ := List.mem_map.mp h
        refine ⟨0, a, r, by simp, hr, ?_⟩
        rw [← heq, Nat.add_zero]
      · obtain ⟨i, rs, r, hi, hr, heq⟩ := ih (base + 1) h
        refine ⟨i + 1, rs, r, by simpa using hi, hr, ?_⟩
        rw [heq]
        have harith : base + 1 + i = base + (i + 1) := by omega
        rw [harith]

/-- C2: importing a rulebook document with N top-level ruleset entries
creates exactly N Ruleset rows, in the order of the entry names; the
persisted Rule rows are exactly the per-entry triples in document
order, so every created Rule row is attached to the Ruleset whose
position matches the document entry whose rules list contained it, with
name and action taken from that entry, and conversely every document
rule is persisted under its positional Ruleset. -/
theorem claim_c2_ruleset_rule_roundtrip (expand : Yaml → Except PyError ExpandMap)
    (em : ExpandMap) (project_id : Nat) (rp raw : String) (l : List RulesetSpec)
    (db db' : DB) (hexp : expand (encodeRulebook l) = .ok em)
    (h : importRulebookDB expand project_id ⟨rp, raw, encodeRulebook l⟩ db = .ok db') :
    db'.rulesets.length = db.rulesets.length + l.length ∧
    (db'.rulesets.drop db.rulesets.length).map RulesetRowDB.name = l.map RulesetSpec.rsname ∧
    (∀ i rs, l[i]? = some rs →
      db'.rulesets[db.rulesets.length + i]? =
        some ⟨db.next_ruleset_id + i, db.next_rulebook_id, rs.rsname,
          lookupYaml em rs.rsname⟩) ∧
    db'.rules = db.rules ++
      assignRuleIds db.next_rule_id (encRuleTriples db.next_ruleset_id l) ∧
    (∀ row ∈ db'.rules.drop db.rules.length, ∃ i rs r,
      l[i]? = some rs ∧ r ∈ rs.rsrules ∧
        row.ruleset_id = db.next_ruleset_id + i ∧
        row.name = r.rname ∧ row.action = r.raction) ∧
    (∀ i rs, l[i]? = some rs → ∀ r ∈ rs.rsrules,
      ∃ row ∈ db'.rules, row.ruleset_id = db.next_ruleset_id + i ∧
        row.name = r.rname ∧ row.action = r.raction) := by
  rw [importRulebookDB_encoded expand em project_id rp raw l db hexp] at h
  cases h
  refine ⟨?_, ?_, ?_, rfl, ?_, ?_⟩
  · simp [List.length_append, assignRulesetIds_length, List.length_map]
  · show ((db.rulesets ++ _).drop db.rulesets.length).map _ = _
    rw [List.drop_left, assignRulesetIds_map_name, List.map_map]
    rfl
  · intro i rs hi
    show (db.rulesets ++ _)[db.rulesets.length + i]? = _
    rw [List.getElem?_append_right (Nat.le_add_right _ _), Nat.add_sub_cancel_left,
      assignRulesetIds_getElem?, List.getElem?_map, hi]
    rfl
  · intro row hrow
    rw [show (db.rules ++
        assignRuleIds db.next_rule_id (encRuleTriples db.next_ruleset_id l)).drop
        db.rules.length =
      assignRuleIds db.next_rule_id (encRuleTriples db.next_ruleset_id l)
      from List.drop_left _ _] at hrow
    obtain ⟨t, ht, h1, h2, h3⟩ := assignRuleIds_mem_rev row _ _ hrow
    obtain ⟨i, rs, r, hi, hr, heq⟩ := encRuleTriples_mem_rev _ _ _ ht
    subst heq
    exact ⟨i, rs, r, hi, hr, h1, h2, h3⟩
  · intro i rs hi r hr
    have ht := encRuleTriples_mem l db.next_ruleset_id i rs hi r hr
    obtain ⟨row, hrow, hfields⟩ := assignRuleIds_mem _ _ db.next_rule_id ht
    exact ⟨row, List.mem_append_right _ hrow, hfields⟩

/-- C2 witness: the one-entry, one-rule document imported into the
empty store yields one Ruleset row. -/
theorem claim_c2_witness :
    oneRuleDB.rulesets.length = emptyDB.rulesets.length + oneRuleDoc.length :=
  (claim_c2_ruleset_rule_roundtrip noExpand [] 5 "a.yml" "raw" oneRuleDoc
    emptyDB oneRuleDB rfl rfl).1

/-- C8: a document with two same-named ruleset entries imports without
any guard rejecting or distinguishing them, and because the expanded
sources are looked up by name, both created Ruleset rows carry the
identical expanded-sources value from the expansion mapping. -/
theorem claim_c8_duplicate_names (expand : Yaml → Except PyError ExpandMap)
    (em : ExpandMap) (project_id : Nat) (rp raw : String) (l : List RulesetSpec)
    (db : DB) (hexp : expand (encodeRulebook l) = .ok em) (i j : Nat)
    (rsi rsj : RulesetSpec) (hi : l[i]? = some rsi) (hj : l[j]? = some rsj)
    (hname : rsi.rsname = rsj.rsname) :
    ∃ db', importRulebookDB expand project_id ⟨rp, raw, encodeRulebook l⟩ db = .ok db' ∧
      db'.rulesets[db.rulesets.length + i]? =
        some ⟨db.next_ruleset_id + i, db.next_rulebook_id, rsi.rsname,
          lookupYaml em rsi.rsname⟩ ∧
      db'.rulesets[db.rulesets.length + j]? =
        some ⟨db.next_ruleset_id + j, db.next_rulebook_id, rsj.rsname,
          lookupYaml em rsi.rsname⟩ := by
  refine ⟨_, importRulebookDB_encoded expand em project_id rp raw l db hexp, ?_, ?_⟩
  · show (db.rulesets ++ _)[db.rulesets.length + i]? = _
    rw [List.getElem?_append_right (Nat.le_add_right _ _), Nat.add_sub_cancel_left,
      assignRulesetIds_getElem?, List.getElem?_map, hi]
    rfl
  · show (db.rulesets ++ _)[db.rulesets.length + j]? = _
    rw [List.getElem?_append_right (Nat.le_add_right _ _), Nat.add_sub_cancel_left,
      assignRulesetIds_getElem?, List.getElem?_map, hj, hname]
    rfl

/-- C8 witness: two entries named r both receive the sources stored
under r in the expansion result. -/
theorem claim_c8_witness :
    ∃ db', importRulebookDB dupExpand 5 ⟨"d.yml", "raw", encodeRulebook dupDoc⟩ emptyDB =
        .ok db' ∧
      db'.rulesets[emptyDB.rulesets.length + 0]? =
        some ⟨emptyDB.next_ruleset_id + 0, emptyDB.next_rulebook_id, .str "r",
          lookupYaml dupEm (.str "r")⟩ ∧
      db'.rulesets[emptyDB.rulesets.length + 1]? =
        some ⟨emptyDB.next_ruleset_id + 1, emptyDB.next_rulebook_id, .str "r",
          lookupYaml dupEm (.str "r")⟩ :=
  claim_c8_duplicate_names dupExpand dupEm 5 "d.yml" "raw" dupDoc emptyDB rfl 0 1
    ⟨.str "r", []⟩ ⟨.str "r", []⟩ rfl rfl rfl

/-! Scanner lemmas. -/

/-- The short-circuit conjunction answers ok true exactly when every
membership test answers ok true. -/
theorem allHaveRules_ok_true_iff (xs : List Yaml) :
    allHaveRules xs = .ok true ↔ ∀ e ∈ xs, pyIn (.str "rules") e = .ok true := by
  induction xs with
  | nil => simp [allHaveRules]
  | cons e rest ih =>
      simp only [allHaveRules]
      cases hp : pyIn (.str "rules") e with
      | error err =>
          constructor
          · intro h; cases h
          · intro h
            have he := h e (List.mem_cons_self e rest)
            rw [hp] at he
            cases he
      | ok b =>
          cases b with
          | false =>
              constructor
              · intro h; cases h
              · intro h
                have he := h e (List.mem_cons_self e rest)
                rw [hp] at he
                cases he
          | true =>
              rw [ih]
              constructor
              · intro h e' he'
                rcases List.mem_cons.mp he' with h1 | h1
                · subst h1; exact hp
                · exact h e' h1
              · intro h e' he'
                exact h e' (List.mem_cons_of_mem _ he')

/-- A candidate whose YAML text does not parse is logged at warning
level (then at debug level for not being a rulebook), contributes no
record, and scanning continues. -/
theorem scanFiles_cons_yamlError (f : FsFile) (rest : List FsFile) (m : String)
    (hext : YAML_EXTENSIONS.contains (splitextExt f.filename) = true)
    (hparse : f.parse = .yamlError m) :
    scanFiles (f :: rest) =
      ((scanFiles rest).1,
        ⟨.warning, f.path⟩ :: ⟨.debug, f.path⟩ :: (scanFiles rest).2) := by
  simp only [scanFiles, try_load_rulebook, hparse, hext]
  simp

/-- A candidate whose read or parse raises an unexpected exception is
logged at error level, contributes no record, and scanning continues. -/
theorem scanFiles_cons_otherError (f : FsFile) (rest : List FsFile) (m : String)
    (hext : YAML_EXTENSIONS.contains (splitextExt f.filename) = true)
    (hparse : f.parse = .otherError m) :
    scanFiles (f :: rest) =
      ((scanFiles rest).1, ⟨.error, f.path⟩ :: (scanFiles rest).2) := by
  simp only [scanFiles, try_load_rulebook, hparse, hext]
  simp

/-- A candidate that parses but is not rulebook-shaped is logged at
debug level only, contributes no record, and scanning continues. -/
theorem scanFiles_cons_notRulebook (f : FsFile) (rest : List FsFile) (content : Yaml)
    (hext : YAML_EXTENSIONS.contains (splitextExt f.filename) = true)
    (hparse : f.parse = .ok content)
    (hnotrb : is_rulebook_file content = .ok false) :
    scanFiles (f :: rest) =
      ((scanFiles rest).1, ⟨.debug, f.path⟩ :: (scanFiles rest).2) := by
  simp only [scanFiles, try_load_rulebook, hparse, hnotrb, hext]
  simp

/-- Importing an empty-sequence document creates the Rulebook row and
nothing else. -/
theorem importRulebookDB_emptyDoc (expand : Yaml → Except PyError ExpandMap)
    (em : ExpandMap) (project_id : Nat) (rp raw : String) (db : DB)
    (hexp : expand (.list []) = .ok em) :
    importRulebookDB expand project_id ⟨rp, raw, .list []⟩ db =
      .ok { db with
        next_rulebook_id := db.next_rulebook_id + 1,
        rulebooks := db.rulebooks ++ [⟨db.next_rulebook_id, project_id, rp⟩] } := by
  have h := importRulebookDB_encoded expand em project_id rp raw [] db hexp
  simp only [encodeRulebook, List.map_nil, assignRulesetIds, assignRuleIds, encRuleTriples,
    List.length_nil, List.append_nil, Nat.add_zero] at h
  exact h

/-- C4: the scanner classifies a parsed document as a valid rulebook
exactly when it is a top-level sequence every element of which passes
the "rules" membership test; top-level mappings are classified false,
and a candidate failing the predicate is skipped with a debug
diagnostic, without error, while scanning continues. -/
theorem claim_c4_validity_predicate :
    (∀ data : Yaml, is_rulebook_file data = .ok true ↔
      ∃ xs, data = .list xs ∧ ∀ e ∈ xs, pyIn (.str "rules") e = .ok true) ∧
    (∀ kvs, is_rulebook_file (.map kvs) = .ok false) ∧
    (∀ (f : FsFile) (rest : List FsFile) (content : Yaml),
      YAML_EXTENSIONS.contains (splitextExt f.filename) = true →
      f.parse = .ok content → is_rulebook_file content = .ok false →
      scanFiles (f :: rest) =
        ((scanFiles rest).1, ⟨.debug, f.path⟩ :: (scanFiles rest).2)) := by
  refine ⟨?_, fun kvs => rfl, scanFiles_cons_notRulebook⟩
  intro data
  cases data with
  | list xs =>
      simp only [is_rulebook_file]
      rw [allHaveRules_ok_true_iff]
      constructor
      · intro h; exact ⟨xs, rfl, h⟩
      · rintro ⟨xs', heq, h⟩
        cases heq
        exact h
  | null => simp [is_rulebook_file]
  | bool b => simp [is_rulebook_file]
  | str s => simp [is_rulebook_file]
  | int n => simp [is_rulebook_file]
  | map kvs => simp [is_rulebook_file]

/-- C4 witness: a map-free candidate that parses to a non-rulebook
sequence is skipped with a single debug diagnostic. -/
theorem claim_c4_witness :
    scanFiles [entryNoRulesFile] =
      ((scanFiles []).1, ⟨.debug, entryNoRulesFile.path⟩ :: (scanFiles []).2) :=
  claim_c4_validity_predicate.2.2 entryNoRulesFile []
    (.list [.map [(.str "name", .str "r1")]]) rfl rfl rfl

/-- C5 counterexample: the claim predicts that a ruleset entry missing
the "rules" key passes scanning and aborts the import as a fatal fault
during rule extraction.  On the code, that document fails the scanner
predicate instead: the file is skipped, the run completes successfully
and creates no Rulebook at all. -/
theorem claim_c5_counterexample :
    (run entryNoRulesGit noExpand "p" "u" "" emptyDB).2 = .ok 0 ∧
    (run entryNoRulesGit noExpand "p" "u" "" emptyDB).1.rulebooks = [] :=
  ⟨rfl, rfl⟩

/-- C5 as amended: a document whose top-level shape passes the scanner
predicate (a sequence whose entries all carry "rules") but whose inner
structure is malformed in a way the predicate does not check — here a
ruleset entry missing the "name" key — is not defensively checked by
the scanner and surfaces as a fatal fault (a KeyError) during ruleset
and rule extraction that aborts the whole import, rolling it back. -/
theorem claim_c5_amended_fatal_extraction (fn p rp raw hash : String) (rulesVal : Yaml)
    (expand : Yaml → Except PyError ExpandMap) (em : ExpandMap)
    (name url description : String) (db : DB)
    (hext : YAML_EXTENSIONS.contains (splitextExt fn) = true)
    (hexp : expand (.list [.map [(.str "rules", rulesVal)]]) = .ok em) :
    is_rulebook_file (.list [.map [(.str "rules", rulesVal)]]) = .ok true ∧
    run ⟨.ok ⟨true, [⟨fn, p, rp, raw, .ok (.list [.map [(.str "rules", rulesVal)]])⟩]⟩,
        hash, .ok ()⟩ expand name url description db =
      (db, .error (.pyError (.keyError (.str "name")))) := by
  refine ⟨rfl, ?_⟩
  have hscan : scanFiles
      [(⟨fn, p, rp, raw, .ok (.list [.map [(.str "rules", rulesVal)]])⟩ : FsFile)] =
      ([⟨rp, raw, .list [.map [(.str "rules", rulesVal)]]⟩], []) := by
    simp only [scanFiles, try_load_rulebook, hext]
    rfl
  have himp : ∀ d : DB, importRulebookDB expand db.next_project_id
      ⟨rp, raw, .list [.map [(.str "rules", rulesVal)]]⟩ d =
      .error (.keyError (.str "name")) := by
    intro d
    simp only [importRulebookDB, hexp]
    rfl
  unfold run runInner
  try dsimp only
  unfold find_rulebooks
  try dsimp only
  simp only [reduceIte]
  rw [hscan]
  try dsimp only
  simp only [createProject]
  try dsimp only
  unfold import_rulebooks
  rw [himp]

/-- C5 amended witness: the concrete no-name entry aborts a concrete
run with the KeyError, leaving the store untouched. -/
theorem claim_c5_amended_witness :
    is_rulebook_file (.list [.map [(.str "rules", .list [])]]) = .ok true ∧
    run ⟨.ok ⟨true, [⟨"n.yml", "rulebooks/n.yml", "rulebooks/n.yml", "- rules: []",
        .ok (.list [.map [(.str "rules", .list [])]])⟩]⟩, "c0ffee", .ok ()⟩
      noExpand "p" "u" "" emptyDB =
      (emptyDB, .error (.pyError (.keyError (.str "name")))) :=
  claim_c5_amended_fatal_extraction "n.yml" "rulebooks/n.yml" "rulebooks/n.yml"
    "- rules: []" "c0ffee" (.list []) noExpand [] "p" "u" "" emptyDB rfl rfl

/-- C6: a per-file failure never escapes the scanner.  An unparsable
candidate is logged at warning level and skipped, an unexpected
read/parse fault is logged at error level and skipped, scanning always
completes when the directory exists, and a run over a tree containing
such a broken file behaves exactly as the run over the tree without it:
the broken file contributes zero Rulebook, Ruleset and Rule rows. -/
theorem claim_c6_per_file_failures_recoverable :
    (∀ (f : FsFile) (rest : List FsFile) (m : String),
      YAML_EXTENSIONS.contains (splitextExt f.filename) = true → f.parse = .yamlError m →
      scanFiles (f :: rest) = ((scanFiles rest).1,
        ⟨.warning, f.path⟩ :: ⟨.debug, f.path⟩ :: (scanFiles rest).2)) ∧
    (∀ (f : FsFile) (rest : List FsFile) (m : String),
      YAML_EXTENSIONS.contains (splitextExt f.filename) = true → f.parse = .otherError m →
      scanFiles (f :: rest) = ((scanFiles rest).1,
        ⟨.error, f.path⟩ :: (scanFiles rest).2)) ∧
    (∀ repo : Repo, repo.has_rulebooks_dir = true →
      find_rulebooks repo = .ok (scanFiles repo.files)) ∧
    (∀ (f : FsFile) (rest : List FsFile) (m : String) (hash : String)
      (ar : Except String Unit) (expand : Yaml → Except PyError ExpandMap)
      (name url description : String) (db : DB),
      f.parse = .yamlError m ∨ f.parse = .otherError m →
      run ⟨.ok ⟨true, f :: rest⟩, hash, ar⟩ expand name url description db =
        run ⟨.ok ⟨true, rest⟩, hash, ar⟩ expand name url description db) := by
  refine ⟨scanFiles_cons_yamlError, scanFiles_cons_otherError, ?_, ?_⟩
  · intro repo hdir
    unfold find_rulebooks
    rw [hdir]
    simp
  · intro f rest m hash ar expand name url description db hbad
    have h1 : (scanFiles (f :: rest)).1 = (scanFiles rest).1 := by
      by_cases hext : YAML_EXTENSIONS.contains (splitextExt f.filename) = true
      · rcases hbad with hm | hm
        · rw [scanFiles_cons_yamlError f rest m hext hm]
        · rw [scanFiles_cons_otherError f rest m hext hm]
      · simp only [scanFiles]
        rw [if_neg hext]
    unfold run
    have hsame : runInner ⟨.ok ⟨true, f :: rest⟩, hash, ar⟩ expand name url description db =
        runInner ⟨.ok ⟨true, rest⟩, hash, ar⟩ expand name url description db := by
      unfold runInner
      try dsimp only
      unfold find_rulebooks
      try dsimp only
      simp only [reduceIte]
      try dsimp only
      rw [h1]
      unfold save_project_archive
      try dsimp only
    rw [hsame]

/-- C6 witness: a concrete unparsable candidate yields the warning and
debug diagnostics and no record. -/
theorem claim_c6_witness :
    scanFiles [badYamlFile] = ((scanFiles []).1,
      ⟨.warning, badYamlFile.path⟩ :: ⟨.debug, badYamlFile.path⟩ :: (scanFiles []).2) :=
  claim_c6_per_file_failures_recoverable.1 badYamlFile []
    "mapping values are not allowed here" rfl rfl

/-- C10: a candidate parsing to an empty top-level sequence is accepted
as a valid rulebook (the every-element check holds vacuously), and the
run then creates exactly one Rulebook row and no Ruleset or Rule rows,
without error. -/
theorem claim_c10_empty_list_rulebook (fn p rp raw hash : String)
    (expand : Yaml → Except PyError ExpandMap) (em : ExpandMap)
    (name url description : String) (db : DB)
    (hext : YAML_EXTENSIONS.contains (splitextExt fn) = true)
    (hexp : expand (.list []) = .ok em) :
    is_rulebook_file (.list []) = .ok true ∧
    ∃ db' pid,
      run ⟨.ok ⟨true, [⟨fn, p, rp, raw, .ok (.list [])⟩]⟩, hash, .ok ()⟩
        expand name url description db = (db', .ok pid) ∧
      db'.rulebooks = db.rulebooks ++ [⟨db.next_rulebook_id, pid, rp⟩] ∧
      db'.rulesets = db.rulesets ∧
      db'.rules = db.rules := by
  refine ⟨rfl, ?_⟩
  have hscan : scanFiles [(⟨fn, p, rp, raw, .ok (.list [])⟩ : FsFile)] =
      ([⟨rp, raw, .list []⟩], []) := by
    simp only [scanFiles, try_load_rulebook, hext]
    rfl
  refine ⟨({ db with
      next_project_id := db.next_project_id + 1,
      next_rulebook_id := db.next_rulebook_id + 1,
      projects := (db.projects ++
        [(⟨db.next_project_id, url, hash, name, description, none⟩ : ProjectRow)]).map
        (fun q : ProjectRow => if q.id = db.next_project_id then
          { q with archive_file := some (archiveFilename db.next_project_id) } else q),
      rulebooks := db.rulebooks ++
        [(⟨db.next_rulebook_id, db.next_project_id, rp⟩ : RulebookRowDB)] } : DB),
    db.next_project_id, ?_, rfl, rfl, rfl⟩
  unfold run runInner
  try dsimp only
  unfold find_rulebooks
  try dsimp only
  simp only [reduceIte]
  rw [hscan]
  try dsimp only
  simp only [createProject]
  try dsimp only
  unfold import_rulebooks
  rw [importRulebookDB_emptyDoc expand em db.next_project_id rp raw _ hexp]
  try dsimp only
  unfold import_rulebooks
  try dsimp only
  unfold save_project_archive
  try dsimp only
  try rfl

/-- C10 witness: the concrete empty-sequence candidate imports into the
empty store, creating one Rulebook row and nothing else. -/
theorem claim_c10_witness :
    is_rulebook_file (.list []) = .ok true ∧
    ∃ db' pid,
      run ⟨.ok ⟨true, [⟨"e.yml", "rulebooks/e.yml", "rulebooks/e.yml", "[]",
          .ok (.list [])⟩]⟩, "c0ffee", .ok ()⟩ noExpand "n" "u" "" emptyDB =
        (db', .ok pid) ∧
      db'.rulebooks = emptyDB.rulebooks ++ [⟨emptyDB.next_rulebook_id, pid, "rulebooks/e.yml"⟩] ∧
      db'.rulesets = emptyDB.rulesets ∧
      db'.rules = emptyDB.rules :=
  claim_c10_empty_list_rulebook "e.yml" "rulebooks/e.yml" "rulebooks/e.yml" "[]" "c0ffee"
    noExpand [] "n" "u" "" emptyDB rfl rfl

end EdaImports
